import Mathlib

/-!
# Verification of the goldsift-robot core

A shallow embedding, over `List Char` and explicit state/oracle passing, of the
core logic of the goldsift-robot repository:

* `sanitizeMarkdown` and `formatSegmentContent` (src/ai.ts) — the Markdown
  delimiter balancer used before every segment emission;
* the streaming segment loop of `analyzeStreamingTrading` (src/ai.ts) — buffer
  accumulation, sentinel-marker detection, segment emission;
* `ConcurrencyManagerImpl` (concurrency module) — the admission gate with its
  global counter and per-conversation map;
* `handleTextMessage` (src/bot.ts) — the per-message orchestrator with its
  try/finally release discipline;
* `validateTradingPairByAPI` (docs/streaming-analysis.md) — existence probing
  with cross-market fallback;
* `parseAIResponse`, `validateTradingPair`, `analyzeMessage` (analyzer module)
  — defensive parsing of model output and the two-pass resolution protocol.

JavaScript strings are modelled as `List Char`; JS `number` counters as `ℕ`
(the code clamps with `Math.max(0, ·)`, matching truncated subtraction);
chat identifiers as `ℤ`; thrown exceptions as `Except`/sum results; external
collaborators (model transport, registry, probes, messaging) as explicit
oracle parameters.
-/

/-! ## JavaScript string primitives over `List Char` -/

/-- The `'*'` Markdown delimiter. -/
def asterisk : Char := '*'

/-- The backtick Markdown delimiter (code point 96). -/
def backtick : Char := Char.ofNat 96

/-- The `'_'` Markdown delimiter. -/
def underscore : Char := '_'

/-- Whitespace as recognised by JS `String.prototype.trim` and regex `\s`
(the code points that occur in this code base: space, tab, LF, CR, VT, FF). -/
def jsWs (c : Char) : Bool :=
  c == ' ' || c == '\t' || c == '\n' || c == '\x0d' || c == '\x0b' || c == '\x0c'

/-- JS `String.prototype.trim`. -/
def jsTrim (s : List Char) : List Char :=
  ((s.dropWhile jsWs).reverse.dropWhile jsWs).reverse

/-- JS `String.prototype.toUpperCase`, character-wise (the symbols handled by
the code base are ASCII tickers, where per-character uppercasing agrees with
the JS string method). -/
def jsToUpper (s : List Char) : List Char :=
  s.map Char.toUpper

/-- Remove the last occurrence of `c` from `s` (JS
`s.substring(0, s.lastIndexOf(c)) + s.substring(s.lastIndexOf(c) + 1)`,
a no-op when `lastIndexOf` returns `-1`). -/
def removeLastChar (c : Char) (s : List Char) : List Char :=
  (s.reverse.erase c).reverse

/-- One conditional removal step of `sanitizeMarkdown`: `n` is the count of
delimiter `c` computed up front; when it is odd the last occurrence of `c`
is removed. -/
def sanStep (c : Char) (n : ℕ) (s : List Char) : List Char :=
  if n % 2 ≠ 0 then removeLastChar c s else s

/-- Embedding of `sanitizeMarkdown` (src/ai.ts lines 384–417): counts the
occurrences of `*`, backtick and `_` in the input, then, for each delimiter
whose count is odd, removes its last occurrence.  The three counts are taken
from the original text, exactly as in the source (`boldCount`, `codeCount`,
`underlineCount` are all computed before any removal). -/
def sanitizeMarkdown (text : List Char) : List Char :=
  sanStep underscore (text.count underscore)
    (sanStep backtick (text.count backtick)
      (sanStep asterisk (text.count asterisk) text))

/-- Character predicate: not one of the three tracked Markdown delimiters. -/
def notDelim (c : Char) : Bool :=
  !(c == asterisk || c == backtick || c == underscore)

/-- Concrete sample text with a single (unpaired) asterisk, for witnesses. -/
def exOddStar : List Char := "*a".toList

/-- Concrete sample text with no delimiter at all, for witnesses. -/
def exPlain : List Char := "ab".toList

/-! ## Substring search primitives (JS `includes` / `indexOf` / `replace`) -/

/-- JS `s.indexOf(pat)`: index of the first occurrence of the substring `pat`
in `s`, or `none` for `-1`. -/
def firstIdxOf (pat : List Char) : List Char → Option ℕ
  | [] => if pat.isPrefixOf ([] : List Char) then some 0 else none
  | c :: rest =>
      if pat.isPrefixOf (c :: rest) then some 0
      else (firstIdxOf pat rest).map (· + 1)

/-- JS `s.includes(pat)`. -/
def containsSub (pat s : List Char) : Bool :=
  (firstIdxOf pat s).isSome

/-- JS `s.replace(pat, '')` for a string pattern: removes the first occurrence
of `pat` (a no-op when `pat` does not occur). -/
def jsReplaceFirst (pat s : List Char) : List Char :=
  match firstIdxOf pat s with
  | none => s
  | some i => s.take i ++ s.drop (i + pat.length)

/-! ## The streaming segment loop of `analyzeStreamingTrading` (src/ai.ts) -/

/-- The soft sentinel marker. -/
def segMarker : List Char := "[SEGMENT_COMPLETE]".toList

/-- The hard sentinel marker. -/
def anaMarker : List Char := "[ANALYSIS_COMPLETE]".toList

/-- First keyword whose presence suppresses the disclaimer footer. -/
def kwDisclaimer : List Char := "免责声明".toList

/-- Second keyword whose presence suppresses the disclaimer footer. -/
def kwReference : List Char := "仅供参考".toList

/-- The disclaimer footer appended by `formatSegmentContent` to the final
segment (src/ai.ts line 430, copied verbatim). -/
def disclaimerFooter : List Char :=
  "\n\n━━━━━━━━━━━━━━━━━━━━━━━━━\n⚠️ *免责声明*：以上分析仅供参考，不构成投资建议，投资有风险，请谨慎决策。".toList

/-- Embedding of `formatSegmentContent` (src/ai.ts lines 422–435): sanitize,
append the disclaimer footer when the segment is the final one and the raw
content does not already carry a disclaimer keyword, then sanitize again. -/
def formatSegmentContent (content : List Char) (isComplete : Bool) : List Char :=
  let f1 := sanitizeMarkdown content
  let f2 :=
    if isComplete ∧ containsSub kwDisclaimer content = false
        ∧ containsSub kwReference content = false
    then f1 ++ disclaimerFooter
    else f1
  sanitizeMarkdown f2

/-- One chunk of the upstream token stream (`chunk.content`,
`chunk.finished`). -/
structure StreamChunk where
  content : List Char
  finished : Bool
deriving DecidableEq

/-- One emitted stream segment: the formatted content handed to `onUpdate`
together with the `isComplete` flag.  The sequence index of a segment is its
position in the emission list. -/
structure SegOut where
  content : List Char
  isFinal : Bool
deriving DecidableEq

/-- The loop state of `analyzeStreamingTrading` (src/ai.ts lines 292–358):
`fullContent` and `currentSegment` accumulators, the `segmentCount` counter,
the list of segments emitted so far (the calls to `onUpdate`), and whether the
loop has stopped (`break`). -/
structure SegState where
  fullContent : List Char
  currentSegment : List Char
  segmentCount : ℕ
  emitted : List SegOut
  done : Bool
deriving DecidableEq

/-- Loop state before the first chunk. -/
def initialSegState : SegState := ⟨[], [], 0, [], false⟩

/-- Embedding of one iteration of the `for await (const chunk of stream)` loop
of `analyzeStreamingTrading` (src/ai.ts lines 297–358), with `onUpdate`
present.  A chunk with non-empty content that is not the final transport
signal is appended to both accumulators; the buffer is then scanned for the
two sentinel markers; at the earlier marker the preceding text is trimmed and,
when non-empty, formatted and emitted with `isFinal` equal to
`currentSegment.includes('[ANALYSIS_COMPLETE]')`; the buffer is reset to the
remainder with the first occurrence of each marker string removed, and the
loop breaks when the hard marker was seen anywhere in the buffer. -/
def processChunk (st : SegState) (chunk : StreamChunk) : SegState :=
  if st.done then st
  else if chunk.content ≠ [] ∧ chunk.finished = false then
    let full := st.fullContent ++ chunk.content
    let cs := st.currentSegment ++ chunk.content
    if containsSub segMarker cs = true ∨ containsSub anaMarker cs = true then
      let isAnalysisComplete := containsSub anaMarker cs
      let markerIndex : Option ℕ :=
        match firstIdxOf segMarker cs, firstIdxOf anaMarker cs with
        | some s, some a => some (min s a)
        | some s, none => some s
        | none, some a => some a
        | none, none => none
      match markerIndex with
      | some mi =>
          let segContent := jsTrim (cs.take mi)
          let emitted :=
            if segContent ≠ [] then
              st.emitted ++ [⟨formatSegmentContent segContent isAnalysisComplete,
                isAnalysisComplete⟩]
            else st.emitted
          let segmentCount :=
            if segContent ≠ [] then st.segmentCount + 1 else st.segmentCount
          let remaining := cs.drop mi
          let nextSegment :=
            if isAnalysisComplete then []
            else jsReplaceFirst anaMarker (jsReplaceFirst segMarker remaining)
          ⟨full, nextSegment, segmentCount, emitted, isAnalysisComplete⟩
      | none => ⟨full, cs, st.segmentCount, st.emitted, false⟩
    else ⟨full, cs, st.segmentCount, st.emitted, false⟩
  else if chunk.finished = true then
    ⟨st.fullContent, st.currentSegment, st.segmentCount, st.emitted, true⟩
  else st

/-- Run the streaming loop over a whole chunk list. -/
def runSegmenter (chunks : List StreamChunk) : SegState :=
  chunks.foldl processChunk initialSegState

/-- The segments emitted (in order) for a chunk list. -/
def emittedSegments (chunks : List StreamChunk) : List SegOut :=
  (runSegmenter chunks).emitted

/-- A stream of plain content tokens (no transport-finish signal). -/
def tokenChunks (tokens : List (List Char)) : List StreamChunk :=
  tokens.map (fun t => ⟨t, false⟩)

/-- Scenario E stream, delivered in two chunks, each ending at a marker. -/
def scenarioEToken1 : List Char := "Part one [SEGMENT_COMPLETE]".toList

/-- Second chunk of the two-chunk Scenario E stream. -/
def scenarioEToken2 : List Char := "Part two [ANALYSIS_COMPLETE]".toList

/-- A single chunk containing both markers, the soft one first. -/
def bothMarkersSoftFirst : List Char :=
  "A [SEGMENT_COMPLETE]B [ANALYSIS_COMPLETE]".toList

/-! ## The admission gate (`ConcurrencyManagerImpl`, concurrency module) -/

/-- Gate state: the `globalCount` counter and the set of chat ids currently
mapped to `true` in the `groupAnalysis` map (ids mapped to `false` behave
exactly like absent ids for every operation modelled here). -/
structure GateState where
  globalCount : ℕ
  active : Finset ℤ
deriving DecidableEq

/-- Gate state at construction: counter 0, empty map. -/
def initialGateState : GateState := ⟨0, ∅⟩

/-- Embedding of `canStartAnalysis` (lines 23–44): `false` when the global
count has reached `config.maxConcurrentAnalysis` or this chat is already
analysing, else `true`. -/
def canStartAnalysis (maxConcurrent : ℕ) (s : GateState) (chatId : ℤ) : Bool :=
  if s.globalCount ≥ maxConcurrent then false
  else if chatId ∈ s.active then false
  else true

/-- Embedding of `startAnalysis` (lines 49–62): when `canStartAnalysis` fails
it throws (`true` in the second component) leaving the state unchanged;
otherwise it increments the counter and marks the chat active. -/
def startAnalysis (maxConcurrent : ℕ) (s : GateState) (chatId : ℤ) :
    GateState × Bool :=
  if canStartAnalysis maxConcurrent s chatId = false then (s, true)
  else (⟨s.globalCount + 1, insert chatId s.active⟩, false)

/-- Embedding of `finishAnalysis` (lines 67–83): when the chat is active,
decrement the counter (`Math.max(0, n - 1)`, i.e. truncated subtraction) and
mark it inactive; otherwise only a warning is logged. -/
def finishAnalysis (s : GateState) (chatId : ℤ) : GateState :=
  if chatId ∈ s.active then ⟨s.globalCount - 1, s.active.erase chatId⟩ else s

/-- One call on the gate. -/
inductive GateOp where
  | canStart (chatId : ℤ)
  | start (chatId : ℤ)
  | finish (chatId : ℤ)
deriving DecidableEq

/-- Apply one gate call to the state (`canStartAnalysis` is a pure query; a
throwing `startAnalysis` leaves the state unchanged). -/
def applyGateOp (maxConcurrent : ℕ) (s : GateState) : GateOp → GateState
  | .canStart _ => s
  | .start c => (startAnalysis maxConcurrent s c).1
  | .finish c => finishAnalysis s c

/-- Run a call sequence against a fresh gate. -/
def runGateOps (maxConcurrent : ℕ) (ops : List GateOp) : GateState :=
  ops.foldl (applyGateOp maxConcurrent) initialGateState

/-- The gate invariant: the counter equals the number of active conversations
and never exceeds the configured maximum. -/
def GateInv (maxConcurrent : ℕ) (s : GateState) : Prop :=
  s.globalCount = s.active.card ∧ s.globalCount ≤ maxConcurrent

/-! ## `handleTextMessage` (src/bot.ts lines 288–430) -/

/-- Market type of a trading pair (`'spot' | 'futures'`). -/
inductive TradingPairType where
  | spot
  | futures
deriving DecidableEq

/-- The other market type. -/
def TradingPairType.other : TradingPairType → TradingPairType
  | .spot => .futures
  | .futures => .spot

/-- The `MessageAnalysisResult` record returned by the analyzer.  Confidence
is a rational: the code only ever stores and compares the literal values
`1.0`, `0.9`, `0.1` and `0.0`, never computes with them. -/
structure MessageAnalysisResult where
  isTradeAnalysis : Bool
  tradingPair : Option (List Char)
  tradingPairType : TradingPairType
  confidence : ℚ
deriving DecidableEq

/-- Outcomes of the awaited calls in the `try` body of `handleTextMessage`
(each can throw; payloads are irrelevant to the gate discipline).
`editSafeMessage` is absent because it catches internally and never throws,
and the `onUpdate` callback passed to `analyzeStreamingTrading` catches its
own errors, so streaming is a single fallible call. -/
structure HandlerWorld where
  chatActionA : Except Unit Unit
  analyzeRes : Except Unit MessageAnalysisResult
  sendNonAnalysisMsg : Except Unit Unit
  sendNoPairMsg : Except Unit Unit
  chatActionB : Except Unit Unit
  sendStatusMsg : Except Unit Unit
  klineRes : Except Unit Unit
  streamRes : Except Unit Unit

/-- Embedding of the `try` body of `handleTextMessage` (lines 344–423): the
chat action, resolution, the two early-return branches, status message,
kline fetch and streaming delivery, each propagating a thrown error.  The body
never touches the concurrency gate. -/
def runHandlerBody (w : HandlerWorld) : Except Unit Unit := do
  let _ ← w.chatActionA
  let parseResult ← w.analyzeRes
  if parseResult.isTradeAnalysis = false then
    let _ ← w.sendNonAnalysisMsg
    return ()
  else if parseResult.tradingPair = none then
    let _ ← w.sendNoPairMsg
    return ()
  else do
    let _ ← w.chatActionB
    let _ ← w.sendStatusMsg
    let _ ← w.klineRes
    let _ ← w.streamRes
    return ()

/-- How one `handleTextMessage` execution ended. -/
inductive HandlerOutcome where
  | noText
  | notForBot
  | emptyCleaned
  | admissionDenied
  | completed
  | failed
deriving DecidableEq

/-- Outcome of the `try`/`catch`: `completed` on normal return (including the
early returns inside the `try`), `failed` when the body threw and the `catch`
reported the error. -/
def bodyOutcome (w : HandlerWorld) : HandlerOutcome :=
  match runHandlerBody w with
  | .ok _ => .completed
  | .error _ => .failed

/-- Embedding of `handleTextMessage` (src/bot.ts lines 288–430).  Inputs:
the gate state, the message's chat id and optional text, the result of
`isMessageForBot` and of `cleanMessageText` (both depend only on externally
supplied bot metadata), and the outcomes of the awaited calls.  Returns the
final gate state, the list of gate calls made, and the outcome.  Admission
(`startAnalysis`) happens after the `canStartAnalysis` check with no
suspension point in between; the `finally` clause calls `finishAnalysis`
exactly once on every path through the `try`/`catch`. -/
def handleTextMessage (maxConcurrent : ℕ) (gate : GateState) (chatId : ℤ)
    (text : Option (List Char)) (forBot : Bool) (cleanedText : List Char)
    (w : HandlerWorld) : GateState × List GateOp × HandlerOutcome :=
  match text with
  | none => (gate, [], .noText)
  | some _ =>
    if forBot = false then (gate, [], .notForBot)
    else if jsTrim cleanedText = [] then (gate, [], .emptyCleaned)
    else if canStartAnalysis maxConcurrent gate chatId = false then
      (gate, [.canStart chatId], .admissionDenied)
    else
      let g1 := (startAnalysis maxConcurrent gate chatId).1
      let g2 := finishAnalysis g1 chatId
      (g2, [.canStart chatId, .start chatId, .finish chatId], bodyOutcome w)

/-! ## `validateTradingPairByAPI` (docs/streaming-analysis.md lines 926–1012) -/

/-- Result record of `validateTradingPairByAPI`. -/
structure PairValidation where
  isValid : Bool
  validatedPair : Option (List Char)
  finalTradingPairType : TradingPairType
deriving DecidableEq

/-- Embedding of `validateTradingPairByAPI`: `probe` is the kline existence
oracle (`axios.get` on the 1-point kline endpoint succeeding or failing,
timeouts counting as failure).  A null or empty pair is invalid without any
probe; otherwise the trimmed upper-cased pair is probed against the requested
market type first and against the other type as fallback; when both probes
fail the result is invalid (the inner `try`/`catch` swallows both errors). -/
def validateTradingPairByAPI (probe : List Char → TradingPairType → Bool)
    (pair : Option (List Char)) (tradingPairType : TradingPairType) :
    PairValidation :=
  match pair with
  | none => ⟨false, none, tradingPairType⟩
  | some p =>
    if p = [] then ⟨false, none, tradingPairType⟩
    else
      let cleanPair := jsToUpper (jsTrim p)
      if probe cleanPair tradingPairType then
        ⟨true, some cleanPair, tradingPairType⟩
      else if probe cleanPair tradingPairType.other then
        ⟨true, some cleanPair, tradingPairType.other⟩
      else ⟨false, none, tradingPairType⟩

/-- Probe oracle under which every symbol exists on both markets. -/
def probeAlways : List Char → TradingPairType → Bool := fun _ _ => true

/-- Probe oracle under which symbols exist only on the futures market. -/
def probeFuturesOnly : List Char → TradingPairType → Bool :=
  fun _ m => match m with
    | .futures => true
    | .spot => false

/-- Concrete symbol used in validator witnesses. -/
def exSymbol : List Char := "BTCUSDT".toList

/-! ## JSON values and a model of `JSON.parse`

`JSON.parse` is a host builtin; it is modelled here on the grammar the
analyzer actually feeds it: objects, arrays, strings (with the standard
escapes and `\uXXXX` for scalar values), numbers, booleans and `null`,
with the standard JSON whitespace rules and rejection of trailing input. -/

/-- A parsed JSON value. -/
inductive JValue where
  | null
  | bool (b : Bool)
  | num (q : ℚ)
  | str (s : List Char)
  | arr (elems : List JValue)
  | obj (fields : List (List Char × JValue))

/-- The `'{'` character (code point 123). -/
def lbraceChar : Char := Char.ofNat 123

/-- The `'}'` character (code point 125). -/
def rbraceChar : Char := Char.ofNat 125

/-- JSON insignificant whitespace (space, tab, LF, CR). -/
def jsonWs (c : Char) : Bool :=
  c == ' ' || c == '\t' || c == '\n' || c == '\x0d'

/-- Single-character JSON string escapes. -/
def jsonEscChar (c : Char) : Option Char :=
  if c = '"' then some '"'
  else if c = '\\' then some '\\'
  else if c = '/' then some '/'
  else if c = 'b' then some '\x08'
  else if c = 'f' then some '\x0c'
  else if c = 'n' then some '\n'
  else if c = 'r' then some '\x0d'
  else if c = 't' then some '\t'
  else none

/-- Hexadecimal digit value. -/
def hexDigitVal (c : Char) : Option ℕ :=
  if '0' ≤ c ∧ c ≤ '9' then some (c.toNat - '0'.toNat)
  else if 'a' ≤ c ∧ c ≤ 'f' then some (c.toNat - 'a'.toNat + 10)
  else if 'A' ≤ c ∧ c ≤ 'F' then some (c.toNat - 'A'.toNat + 10)
  else none

/-- JSON string body after the opening quote: returns the decoded characters
and the input after the closing quote.  `\uXXXX` escapes are decoded for
Unicode scalar values (lone surrogates are outside this model). -/
def parseStringBody : (fuel : ℕ) → List Char → Option (List Char × List Char)
  | 0, _ => none
  | _ + 1, [] => none
  | fuel + 1, c :: rest =>
    if c = '"' then some ([], rest)
    else if c = '\\' then
      match rest with
      | 'u' :: h1 :: h2 :: h3 :: h4 :: rest2 =>
        match hexDigitVal h1, hexDigitVal h2, hexDigitVal h3, hexDigitVal h4 with
        | some a, some b, some cc, some d =>
          let n := ((a * 16 + b) * 16 + cc) * 16 + d
          if n < 0xd800 ∨ 0xe000 ≤ n then
            (parseStringBody fuel rest2).map (fun p => (Char.ofNat n :: p.1, p.2))
          else none
        | _, _, _, _ => none
      | e :: rest2 =>
        match jsonEscChar e with
        | some ch => (parseStringBody fuel rest2).map (fun p => (ch :: p.1, p.2))
        | none => none
      | [] => none
    else if c.toNat < 32 then none
    else (parseStringBody fuel rest).map (fun p => (c :: p.1, p.2))

/-- Leading decimal digits of the input, as a list of digit values. -/
def takeDigits : List Char → List ℕ × List Char
  | [] => ([], [])
  | c :: rest =>
    if '0' ≤ c ∧ c ≤ '9' then
      let (ds, rem) := takeDigits rest
      ((c.toNat - '0'.toNat) :: ds, rem)
    else ([], c :: rest)

/-- Digit list to a natural number. -/
def digitsToNat (ds : List ℕ) : ℕ :=
  ds.foldl (fun acc d => acc * 10 + d) 0

/-- JSON number: optional minus, integer part without leading zeros,
optional fraction, optional exponent; value as a rational. -/
def parseNumber (s : List Char) : Option (ℚ × List Char) :=
  let (neg, s1) : Bool × List Char := match s with
    | '-' :: rest => (true, rest)
    | _ => (false, s)
  let (ids, s2) := takeDigits s1
  if ids = [] then none
  else if ids.length > 1 ∧ ids.headI = 0 then none
  else
    let intPart : ℚ := (digitsToNat ids : ℚ)
    let fracRes : Option (ℚ × List Char) := match s2 with
      | '.' :: rest =>
        let (fds, rem) := takeDigits rest
        if fds = [] then none
        else some ((digitsToNat fds : ℚ) / ((10 : ℚ) ^ fds.length), rem)
      | _ => some (0, s2)
    match fracRes with
    | none => none
    | some (fracVal, s3) =>
      let expRes : Option (ℚ × List Char) := match s3 with
        | e :: rest =>
          if e = 'e' ∨ e = 'E' then
            let (esign, rest2) : Bool × List Char := match rest with
              | '+' :: r => (false, r)
              | '-' :: r => (true, r)
              | _ => (false, rest)
            let (eds, rem) := takeDigits rest2
            if eds = [] then none
            else
              let base : ℚ := if esign then 1 / 10 else 10
              some (base ^ digitsToNat eds, rem)
          else some (1, s3)
        | [] => some (1, [])
      match expRes with
      | none => none
      | some (expMul, s4) =>
        let v := (intPart + fracVal) * expMul
        some (if neg then -v else v, s4)

mutual

/-- A JSON value, after optional leading whitespace. -/
def parseJValue : (fuel : ℕ) → List Char → Option (JValue × List Char)
  | 0, _ => none
  | fuel + 1, input =>
    match input.dropWhile jsonWs with
    | [] => none
    | c :: rest =>
      if c = '"' then
        (parseStringBody (rest.length + 1) rest).map (fun p => (.str p.1, p.2))
      else if c = lbraceChar then
        match (rest.dropWhile jsonWs) with
        | d :: rest2 =>
          if d = rbraceChar then some (.obj [], rest2)
          else parseObjFields fuel (c :: rest)
        | [] => none
      else if c = '[' then
        match (rest.dropWhile jsonWs) with
        | d :: rest2 =>
          if d = ']' then some (.arr [], rest2)
          else parseArrElems fuel (c :: rest)
        | [] => none
      else if ("true".toList).isPrefixOf (c :: rest) then
        some (.bool true, (c :: rest).drop 4)
      else if ("false".toList).isPrefixOf (c :: rest) then
        some (.bool false, (c :: rest).drop 5)
      else if ("null".toList).isPrefixOf (c :: rest) then
        some (.null, (c :: rest).drop 4)
      else
        (parseNumber (c :: rest)).map (fun p => (.num p.1, p.2))

/-- Non-empty object field list, starting at the opening brace or a comma:
the first input character is skipped, then `"key" : value` is parsed,
then either `}` closes the object or `,` continues it. -/
def parseObjFields : (fuel : ℕ) → List Char → Option (JValue × List Char)
  | 0, _ => none
  | fuel + 1, input =>
    match input with
    | [] => none
    | _ :: afterOpen =>
      match afterOpen.dropWhile jsonWs with
      | k :: keyRest =>
        if k = '"' then
          match parseStringBody (keyRest.length + 1) keyRest with
          | some (key, afterKey) =>
            match afterKey.dropWhile jsonWs with
            | ':' :: afterColon =>
              match parseJValue fuel afterColon with
              | some (v, afterVal) =>
                match afterVal.dropWhile jsonWs with
                | d :: afterD =>
                  if d = rbraceChar then some (.obj [(key, v)], afterD)
                  else if d = ',' then
                    match parseObjFields fuel (d :: afterD) with
                    | some (.obj fields, rem) => some (.obj ((key, v) :: fields), rem)
                    | _ => none
                  else none
                | [] => none
              | none => none
            | _ => none
          | none => none
        else none
      | [] => none

/-- Non-empty array element list, starting at the opening bracket or a
comma. -/
def parseArrElems : (fuel : ℕ) → List Char → Option (JValue × List Char)
  | 0, _ => none
  | fuel + 1, input =>
    match input with
    | [] => none
    | _ :: afterOpen =>
      match parseJValue fuel afterOpen with
      | some (v, afterVal) =>
        match afterVal.dropWhile jsonWs with
        | d :: afterD =>
          if d = ']' then some (.arr [v], afterD)
          else if d = ',' then
            match parseArrElems fuel (d :: afterD) with
            | some (.arr elems, rem) => some (.arr (v :: elems), rem)
            | _ => none
          else none
        | [] => none
      | none => none

end

/-- Model of `JSON.parse`: parse one value and require only whitespace after
it; `none` models a thrown `SyntaxError`. -/
def jsonParse (s : List Char) : Option JValue :=
  match parseJValue (s.length + 1) s with
  | some (v, rem) => if rem.dropWhile jsonWs = [] then some v else none
  | none => none

/-- JS property read `parsed.key`: `none` models `undefined` (absent field or
access on a non-object).  For duplicate keys `JSON.parse` keeps the last
occurrence. -/
def jGet (v : JValue) (key : List Char) : Option JValue :=
  match v with
  | .obj fields => (fields.reverse.find? (fun p => p.1 == key)).map Prod.snd
  | _ => none

/-- JS truthiness of a parsed JSON value (`undefined` is handled by callers
as `JValue.null`). -/
def jTruthy (v : JValue) : Bool :=
  match v with
  | .null => false
  | .bool b => b
  | .num q => decide (q ≠ 0)
  | .str s => decide (s ≠ [])
  | .arr _ => true
  | .obj _ => true

/-- JS `['spot','futures'].includes(v)`. -/
def isSpotOrFuturesStr (v : JValue) : Bool :=
  match v with
  | .str s => s == "spot".toList || s == "futures".toList
  | _ => false

/-! ## The analyzer (`part_003`): `parseAIResponse`, `validateTradingPair`,
`analyzeMessage` -/

/-- JS `s.lastIndexOf(c)` for a single character. -/
def lastIdxOf (c : Char) (s : List Char) : Option ℕ :=
  (firstIdxOf [c] s.reverse).map (fun i => s.length - 1 - i)

/-- JS `s.substring(a, b)`: clamps both indices to the string length and
swaps them when `a > b`. -/
def jsSubstring (s : List Char) (a b : ℕ) : List Char :=
  let a' := min a s.length
  let b' := min b s.length
  (s.take (max a' b')).drop (min a' b')

/-- Body of the lazy fenced-JSON capture: the shortest prefix that stops at a
`'}'` followed by optional whitespace and a closing triple backtick
(`[\s\S]*?` before `\}\s*` followed by the final fence). -/
def fenceBody : List Char → Option (List Char × List Char)
  | [] => none
  | c :: rest =>
    if c = rbraceChar ∧ ("```".toList).isPrefixOf (rest.dropWhile jsWs) then
      some ([], rest)
    else (fenceBody rest).map (fun p => (c :: p.1, p.2))

/-- Attempt the part of the fence pattern after the opening backticks and the
optional `json` tag: optional whitespace, then a braced lazy capture. -/
def fenceAfterTag (t : List Char) : Option (List Char) :=
  match t.dropWhile jsWs with
  | c :: u =>
    if c = lbraceChar then
      (fenceBody u).map (fun p => lbraceChar :: p.1 ++ [rbraceChar])
    else none
  | [] => none

/-- Match of the fenced-JSON regex anchored at the current position:
`` ``` `` then optionally `json` (preferred, with fallback, as for a greedy
optional group), then the captured `{...}` span. -/
def matchFenceAt (s : List Char) : Option (List Char) :=
  if ("```".toList).isPrefixOf s then
    let afterTicks := s.drop 3
    if ("json".toList).isPrefixOf afterTicks then
      match fenceAfterTag (afterTicks.drop 4) with
      | some g => some g
      | none => fenceAfterTag afterTicks
    else fenceAfterTag afterTicks
  else none

/-- Leftmost match of the fenced-JSON extraction regex of `parseAIResponse`
(`parseAIResponse` line 151); the returned capture is the `{...}` group. -/
def extractFencedJson : List Char → Option (List Char)
  | [] => none
  | c :: rest =>
    match matchFenceAt (c :: rest) with
    | some g => some g
    | none => extractFencedJson rest

/-- Object keys read by `parseAIResponse`. -/
def keyIsTradeAnalysis : List Char := "isTradeAnalysis".toList

/-- The `tradingPair` key. -/
def keyTradingPair : List Char := "tradingPair".toList

/-- The `tradingPairType` key. -/
def keyTradingPairType : List Char := "tradingPairType".toList

/-- The fallback value returned by the `catch` of `parseAIResponse`. -/
def parseFailureResult : MessageAnalysisResult :=
  ⟨false, none, .spot, 0⟩

/-- Embedding of `parseAIResponse` (part_003 lines 140–207): trim, extract a
fenced or braced JSON span, `JSON.parse` it, then validate the field types
(`isTradeAnalysis` boolean; `tradingPair` null or string — an absent field is
`undefined` and fails the check; `tradingPairType`, when truthy, one of
`'spot'`/`'futures'`).  Every failure is caught and yields
`parseFailureResult`; success yields the parsed fields with
`tradingPairType || 'spot'` and confidence `0.9`. -/
def parseAIResponse (aiResponse : List Char) : MessageAnalysisResult :=
  let c0 := jsTrim aiResponse
  let cleanResponse :=
    match extractFencedJson c0 with
    | some g => g
    | none =>
      match firstIdxOf [lbraceChar] c0, lastIdxOf rbraceChar c0 with
      | some jsonStart, some jsonEnd => jsSubstring c0 jsonStart (jsonEnd + 1)
      | _, _ => c0
  match jsonParse cleanResponse with
  | none => parseFailureResult
  | some parsed =>
    match jGet parsed keyIsTradeAnalysis with
    | some (.bool bIsTrade) =>
      let pairField : Option (Option (List Char)) :=
        match jGet parsed keyTradingPair with
        | some .null => some none
        | some (.str s) => some (some s)
        | _ => none
      match pairField with
      | none => parseFailureResult
      | some tradingPair =>
        let tptVal : JValue :=
          match jGet parsed keyTradingPairType with
          | some v => v
          | none => .null
        if jTruthy tptVal = true ∧ isSpotOrFuturesStr tptVal = false then
          parseFailureResult
        else
          let tradingPairType :=
            if jTruthy tptVal = true then
              match tptVal with
              | .str s => if s = "spot".toList then TradingPairType.spot
                          else TradingPairType.futures
              | _ => TradingPairType.spot
            else TradingPairType.spot
          ⟨bIsTrade, tradingPair, tradingPairType, 9 / 10⟩
    | _ => parseFailureResult

/-- Embedding of `validateTradingPair` (part_003 lines 212–222): a null or
empty pair becomes null; otherwise the pair is upper-cased and returned.  The
`^[A-Z]{3,10}[A-Z]{3,10}$` regex test only logs a warning and has no effect
on the returned value. -/
def validateTradingPair (pair : Option (List Char)) : Option (List Char) :=
  match pair with
  | none => none
  | some p => if p = [] then none else some (jsToUpper p)

/-- Embedding of `callAIAPI` (part_003 lines 87–135): the oracle value is the
transport outcome carrying `response.content`; a transport error or empty
content rethrows as `TradingAnalysisError`, otherwise the trimmed content is
returned. -/
def callAIAPI (response : Except Unit (List Char)) : Except Unit (List Char) :=
  match response with
  | .error _ => .error ()
  | .ok content => if content = [] then .error () else .ok (jsTrim content)

/-- Embedding of `analyzeMessageWithContext` (part_003 lines 227–268): the
pair lists only feed the prompt text, which the oracle already abstracts.
Any failure of the AI call is caught and yields the degraded
`{isTradeAnalysis: true, tradingPair: null, confidence: 0.1}` verdict;
otherwise the response is parsed and the pair validated. -/
def analyzeMessageWithContext (secondCall : Except Unit (List Char)) :
    MessageAnalysisResult :=
  match callAIAPI secondCall with
  | .error _ => ⟨true, none, .spot, 1 / 10⟩
  | .ok aiResponse =>
    let result := parseAIResponse aiResponse
    { result with tradingPair := validateTradingPair result.tradingPair }

/-- Outcomes of the external calls `analyzeMessage` can make: the first
classification call, the `getEnhancedTradingPairs` registry fetch, and the
second (grounded) classification call. -/
structure ResolverWorld where
  firstCall : Except Unit (List Char)
  pairsFetch : Except Unit (List (List Char) × List (List Char))
  secondCall : Except Unit (List Char)

/-- The verdict after the first pass: parse the (trimmed) response and
validate the pair. -/
def firstPassVerdict (resp : List Char) : MessageAnalysisResult :=
  let r := parseAIResponse (jsTrim resp)
  { r with tradingPair := validateTradingPair r.tradingPair }

/-- Embedding of `analyzeMessage` (part_003 lines 274–343), returning the
verdict together with the number of external calls issued.  Empty or
whitespace-only input short-circuits with confidence `1.0` and no external
call.  A failure of the first classification call is absorbed by the outer
`catch` (confidence `0.0`).  When the first pass flags an analysis request
without a pair, the registry is fetched and a second grounded pass runs
inside an inner `try`/`catch`; a second-pass result is used only when it
carries a pair, and every failure degrades instead of propagating. -/
def analyzeMessage (w : ResolverWorld) (message : List Char) :
    MessageAnalysisResult × ℕ :=
  if message = [] ∨ jsTrim message = [] then
    (⟨false, none, .spot, 1⟩, 0)
  else
    match callAIAPI w.firstCall with
    | .error _ => (⟨false, none, .spot, 0⟩, 1)
    | .ok aiResponse =>
      let result : MessageAnalysisResult :=
        let r := parseAIResponse aiResponse
        { r with tradingPair := validateTradingPair r.tradingPair }
      if result.isTradeAnalysis = true ∧ result.tradingPair = none then
        match w.pairsFetch with
        | .error _ => (result, 2)
        | .ok _ =>
          let secondResult := analyzeMessageWithContext w.secondCall
          match secondResult.tradingPair with
          | some _ => (secondResult, 3)
          | none => (result, 3)
      else (result, 1)

/-- The `^[A-Z]{2,15}$` pattern of the specification's data-model invariant. -/
def specSymbolPattern (s : List Char) : Bool :=
  decide (2 ≤ s.length) && decide (s.length ≤ 15) &&
    s.all (fun c => decide ('A' ≤ c) && decide (c ≤ 'Z'))

/-- Classifier output whose verdict violates the data-model invariant:
`isTradeAnalysis` false together with a (short, lowercase) pair. -/
def respFalseWithPair : List Char :=
  "\x7b\"isTradeAnalysis\": false, \"tradingPair\": \"x\"\x7d".toList

/-- A plain non-empty user message for resolver witnesses. -/
def exMessage : List Char := "analyze btc".toList

/-! # Theorems -/

/-! ## Lemmas about `removeLastChar` and `sanStep` -/

theorem removeLastChar_count_self (c : Char) (s : List Char) :
    (removeLastChar c s).count c = s.count c - 1 := by
  unfold removeLastChar
  rw [List.count_reverse, List.count_erase_self, List.count_reverse]

theorem removeLastChar_count_ne {c d : Char} (h : d ≠ c) (s : List Char) :
    (removeLastChar c s).count d = s.count d := by
  unfold removeLastChar
  rw [List.count_reverse, List.count_erase_of_ne h, List.count_reverse]

theorem removeLastChar_sublist (c : Char) (s : List Char) :
    (removeLastChar c s).Sublist s := by
  have h : (s.reverse.erase c).Sublist s.reverse := List.erase_sublist _ _
  have h2 := h.reverse
  rwa [List.reverse_reverse] at h2

theorem removeLastChar_length_le (c : Char) (s : List Char) :
    (removeLastChar c s).length ≤ s.length :=
  (removeLastChar_sublist c s).length_le

theorem removeLastChar_length_ge (c : Char) (s : List Char) :
    s.length - 1 ≤ (removeLastChar c s).length := by
  unfold removeLastChar
  rw [List.length_reverse]
  by_cases hm : c ∈ s.reverse
  · have h := List.length_erase_add_one hm
    rw [List.length_reverse] at h
    omega
  · rw [List.erase_of_not_mem hm, List.length_reverse]
    omega

theorem removeLastChar_eq_append {c : Char} {a b : List Char} (hb : c ∉ b) :
    removeLastChar c (a ++ c :: b) = a ++ b := by
  unfold removeLastChar
  rw [List.reverse_append, List.reverse_cons, List.append_assoc,
    List.erase_append_right _ (by simpa using hb),
    List.singleton_append, List.erase_cons_head, List.reverse_append,
    List.reverse_reverse, List.reverse_reverse]

theorem removeLastChar_comm (c d : Char) (s : List Char) :
    removeLastChar c (removeLastChar d s) = removeLastChar d (removeLastChar c s) := by
  unfold removeLastChar
  rw [List.reverse_reverse, List.reverse_reverse, List.erase_comm]

theorem filter_reverse_eq (p : Char → Bool) (l : List Char) :
    l.reverse.filter p = (l.filter p).reverse := by
  induction l with
  | nil => rfl
  | cons a t ih =>
      rw [List.reverse_cons, List.filter_append, ih, List.filter_cons]
      by_cases hpa : p a = true
      · simp [hpa]
      · simp [hpa]

theorem erase_filter_of_neg {p : Char → Bool} {c : Char} (hp : p c = false)
    (l : List Char) : (l.erase c).filter p = l.filter p := by
  by_cases hm : c ∈ l
  · obtain ⟨l₁, l₂, _, h₂, h₃⟩ := List.exists_erase_eq hm
    rw [h₃, List.filter_append]
    conv_rhs => rw [h₂]
    rw [List.filter_append, List.filter_cons_of_neg (by simp [hp])]
  · rw [List.erase_of_not_mem hm]

theorem removeLastChar_filter {p : Char → Bool} {c : Char} (hp : p c = false)
    (s : List Char) : (removeLastChar c s).filter p = s.filter p := by
  unfold removeLastChar
  rw [filter_reverse_eq, erase_filter_of_neg hp, filter_reverse_eq,
    List.reverse_reverse]

theorem sanStep_count_self (c : Char) (n : ℕ) (s : List Char) :
    (sanStep c n s).count c = if n % 2 ≠ 0 then s.count c - 1 else s.count c := by
  unfold sanStep
  split <;> simp [removeLastChar_count_self]

theorem sanStep_count_ne {c d : Char} (h : d ≠ c) (n : ℕ) (s : List Char) :
    (sanStep c n s).count d = s.count d := by
  unfold sanStep
  split <;> simp [removeLastChar_count_ne h]

theorem sanStep_of_even {c : Char} {n : ℕ} (h : n % 2 = 0) (s : List Char) :
    sanStep c n s = s := by
  unfold sanStep
  simp [h]

theorem sanStep_sublist (c : Char) (n : ℕ) (s : List Char) :
    (sanStep c n s).Sublist s := by
  unfold sanStep
  split
  · exact removeLastChar_sublist c s
  · exact List.Sublist.refl s

theorem sanStep_length_ge (c : Char) (n : ℕ) (s : List Char) :
    s.length - 1 ≤ (sanStep c n s).length := by
  unfold sanStep
  split
  · exact removeLastChar_length_ge c s
  · omega

theorem sanStep_filter {p : Char → Bool} {c : Char} (hp : p c = false) (n : ℕ)
    (s : List Char) : (sanStep c n s).filter p = s.filter p := by
  unfold sanStep
  split
  · exact removeLastChar_filter hp s
  · rfl

theorem sanStep_removeLastChar_comm (c d : Char) (n : ℕ) (s : List Char) :
    sanStep c n (removeLastChar d s) = removeLastChar d (sanStep c n s) := by
  unfold sanStep
  split
  · exact removeLastChar_comm c d s
  · rfl

/-! ## Character disequalities between the delimiters -/

theorem asterisk_ne_backtick : asterisk ≠ backtick := by decide

theorem asterisk_ne_underscore : asterisk ≠ underscore := by decide

theorem backtick_ne_underscore : backtick ≠ underscore := by decide

/-! ## Count behaviour of `sanitizeMarkdown` -/

theorem sanitize_count_asterisk (x : List Char) :
    (sanitizeMarkdown x).count asterisk =
      if x.count asterisk % 2 ≠ 0 then x.count asterisk - 1 else x.count asterisk := by
  unfold sanitizeMarkdown
  rw [sanStep_count_ne asterisk_ne_underscore, sanStep_count_ne asterisk_ne_backtick,
    sanStep_count_self]

theorem sanitize_count_backtick (x : List Char) :
    (sanitizeMarkdown x).count backtick =
      if x.count backtick % 2 ≠ 0 then x.count backtick - 1 else x.count backtick := by
  unfold sanitizeMarkdown
  rw [sanStep_count_ne backtick_ne_underscore, sanStep_count_self,
    sanStep_count_ne (Ne.symm asterisk_ne_backtick)]

theorem sanitize_count_underscore (x : List Char) :
    (sanitizeMarkdown x).count underscore =
      if x.count underscore % 2 ≠ 0 then x.count underscore - 1 else x.count underscore := by
  unfold sanitizeMarkdown
  rw [sanStep_count_self, sanStep_count_ne (Ne.symm backtick_ne_underscore),
    sanStep_count_ne (Ne.symm asterisk_ne_underscore)]

theorem count_pos_of_odd {x : List Char} {c : Char} (h : x.count c % 2 ≠ 0) :
    1 ≤ x.count c := by omega

theorem sanitize_count_even_asterisk (x : List Char) :
    (sanitizeMarkdown x).count asterisk % 2 = 0 := by
  rw [sanitize_count_asterisk]
  split
  · have := count_pos_of_odd (x := x) (c := asterisk) (by assumption)
    omega
  · omega

theorem sanitize_count_even_backtick (x : List Char) :
    (sanitizeMarkdown x).count backtick % 2 = 0 := by
  rw [sanitize_count_backtick]
  split
  · have := count_pos_of_odd (x := x) (c := backtick) (by assumption)
    omega
  · omega

theorem sanitize_count_even_underscore (x : List Char) :
    (sanitizeMarkdown x).count underscore % 2 = 0 := by
  rw [sanitize_count_underscore]
  split
  · have := count_pos_of_odd (x := x) (c := underscore) (by assumption)
    omega
  · omega

theorem sanitize_of_even {x : List Char} (h1 : x.count asterisk % 2 = 0)
    (h2 : x.count backtick % 2 = 0) (h3 : x.count underscore % 2 = 0) :
    sanitizeMarkdown x = x := by
  unfold sanitizeMarkdown
  rw [sanStep_of_even h1, sanStep_of_even h2, sanStep_of_even h3]

theorem count_append_cons_ne {c d : Char} (h : d ≠ c) (a b : List Char) :
    (a ++ c :: b).count d = (a ++ b).count d := by
  simp [List.count_append, List.count_cons, h]

theorem count_append_cons_self (c : Char) (a b : List Char) :
    (a ++ c :: b).count c = (a ++ b).count c + 1 := by
  simp [List.count_append, List.count_cons]
  omega

theorem sanitize_drop_last_asterisk {a b : List Char} (hb : asterisk ∉ b)
    (hodd : (a ++ asterisk :: b).count asterisk % 2 ≠ 0) :
    sanitizeMarkdown (a ++ asterisk :: b) = sanitizeMarkdown (a ++ b) := by
  have h1 : sanStep asterisk ((a ++ asterisk :: b).count asterisk)
      (a ++ asterisk :: b) = a ++ b := by
    unfold sanStep
    rw [if_pos hodd]
    exact removeLastChar_eq_append hb
  have he : (a ++ b).count asterisk % 2 = 0 := by
    have := count_append_cons_self asterisk a b
    omega
  unfold sanitizeMarkdown
  conv_rhs => rw [sanStep_of_even he]
  rw [h1, count_append_cons_ne (Ne.symm asterisk_ne_underscore),
    count_append_cons_ne (Ne.symm asterisk_ne_backtick)]

theorem sanitize_drop_last_backtick {a b : List Char} (hb : backtick ∉ b)
    (hodd : (a ++ backtick :: b).count backtick % 2 ≠ 0) :
    sanitizeMarkdown (a ++ backtick :: b) = sanitizeMarkdown (a ++ b) := by
  have hrm : removeLastChar backtick (a ++ backtick :: b) = a ++ b :=
    removeLastChar_eq_append hb
  have he : (a ++ b).count backtick % 2 = 0 := by
    have := count_append_cons_self backtick a b
    omega
  unfold sanitizeMarkdown
  conv_lhs =>
    rw [show sanStep backtick ((a ++ backtick :: b).count backtick)
        (sanStep asterisk ((a ++ backtick :: b).count asterisk) (a ++ backtick :: b)) =
        removeLastChar backtick
          (sanStep asterisk ((a ++ backtick :: b).count asterisk) (a ++ backtick :: b)) from by
      unfold sanStep
      rw [if_pos hodd]]
    rw [← sanStep_removeLastChar_comm, hrm]
  conv_rhs => rw [sanStep_of_even he]
  rw [count_append_cons_ne (Ne.symm backtick_ne_underscore),
    count_append_cons_ne asterisk_ne_backtick]

theorem sanitize_drop_last_underscore {a b : List Char} (hb : underscore ∉ b)
    (hodd : (a ++ underscore :: b).count underscore % 2 ≠ 0) :
    sanitizeMarkdown (a ++ underscore :: b) = sanitizeMarkdown (a ++ b) := by
  have hrm : removeLastChar underscore (a ++ underscore :: b) = a ++ b :=
    removeLastChar_eq_append hb
  have he : (a ++ b).count underscore % 2 = 0 := by
    have := count_append_cons_self underscore a b
    omega
  unfold sanitizeMarkdown
  conv_lhs =>
    rw [show sanStep underscore ((a ++ underscore :: b).count underscore)
        (sanStep backtick ((a ++ underscore :: b).count backtick)
          (sanStep asterisk ((a ++ underscore :: b).count asterisk)
            (a ++ underscore :: b))) =
        removeLastChar underscore
          (sanStep backtick ((a ++ underscore :: b).count backtick)
            (sanStep asterisk ((a ++ underscore :: b).count asterisk)
              (a ++ underscore :: b))) from by
      unfold sanStep
      rw [if_pos hodd]]
    rw [← sanStep_removeLastChar_comm, ← sanStep_removeLastChar_comm, hrm]
  conv_rhs => rw [sanStep_of_even he]
  rw [count_append_cons_ne asterisk_ne_underscore,
    count_append_cons_ne backtick_ne_underscore]

/-- C6: the sanitizer is idempotent: `sanitize (sanitize x) = sanitize x`
for every string `x` (after one pass every tracked delimiter count is even,
so the second pass removes nothing). -/
theorem sanitizeMarkdown_idempotent (x : List Char) :
    sanitizeMarkdown (sanitizeMarkdown x) = sanitizeMarkdown x :=
  sanitize_of_even (sanitize_count_even_asterisk x) (sanitize_count_even_backtick x)
    (sanitize_count_even_underscore x)

/-- C7: in `sanitize(x)` the number of occurrences of each of the three tracked
delimiters is even; and when a delimiter's count in `x` is odd, the sanitizer
removes exactly the last occurrence of that delimiter: its count drops by one
and, writing `x = a ++ c :: b` with no later occurrence of `c` in `b`,
sanitizing `x` agrees with sanitizing `x` with that occurrence deleted. -/
theorem sanitize_balanced_removes_last (x : List Char) :
    (sanitizeMarkdown x).count asterisk % 2 = 0
    ∧ (sanitizeMarkdown x).count backtick % 2 = 0
    ∧ (sanitizeMarkdown x).count underscore % 2 = 0
    ∧ ∀ c, (c = asterisk ∨ c = backtick ∨ c = underscore) → x.count c % 2 ≠ 0 →
        (sanitizeMarkdown x).count c = x.count c - 1
        ∧ ∀ a b, x = a ++ c :: b → c ∉ b →
            sanitizeMarkdown x = sanitizeMarkdown (a ++ b) := by
  refine ⟨sanitize_count_even_asterisk x, sanitize_count_even_backtick x,
    sanitize_count_even_underscore x, ?_⟩
  rintro c (rfl | rfl | rfl) hodd
  · refine ⟨?_, ?_⟩
    · rw [sanitize_count_asterisk, if_pos hodd]
    · rintro a b rfl hb
      exact sanitize_drop_last_asterisk hb hodd
  · refine ⟨?_, ?_⟩
    · rw [sanitize_count_backtick, if_pos hodd]
    · rintro a b rfl hb
      exact sanitize_drop_last_backtick hb hodd
  · refine ⟨?_, ?_⟩
    · rw [sanitize_count_underscore, if_pos hodd]
    · rintro a b rfl hb
      exact sanitize_drop_last_underscore hb hodd

/-- Witness for C7 at the concrete input `"*a"` (one unpaired asterisk):
the asterisk count is odd, the sanitized count drops by one, and the result
agrees with sanitizing `"a"` (the last asterisk deleted). -/
theorem sanitize_balanced_removes_last_witness :
    exOddStar.count asterisk % 2 ≠ 0
    ∧ (sanitizeMarkdown exOddStar).count asterisk = exOddStar.count asterisk - 1
    ∧ sanitizeMarkdown exOddStar = sanitizeMarkdown ("a".toList) := by
  have h := (sanitize_balanced_removes_last exOddStar).2.2.2 asterisk (Or.inl rfl)
    (by decide)
  exact ⟨by decide, h.1, h.2 [] ("a".toList) (by decide) (by decide)⟩

/-- C10: the sanitizer only deletes characters: `sanitize(x)` is a sublist of
`x`, its length is within 3 of `x`'s, every non-delimiter character is kept in
order, every character other than the three delimiters keeps its exact count,
and when every delimiter count is even nothing at all is removed. -/
theorem sanitize_deletion_only (x : List Char) :
    (sanitizeMarkdown x).Sublist x
    ∧ x.length - 3 ≤ (sanitizeMarkdown x).length
    ∧ (sanitizeMarkdown x).length ≤ x.length
    ∧ (sanitizeMarkdown x).filter notDelim = x.filter notDelim
    ∧ (∀ c, c ≠ asterisk → c ≠ backtick → c ≠ underscore →
        (sanitizeMarkdown x).count c = x.count c)
    ∧ (x.count asterisk % 2 = 0 → x.count backtick % 2 = 0 →
        x.count underscore % 2 = 0 → sanitizeMarkdown x = x) := by
  refine ⟨?_, ?_, ?_, ?_, ?_, fun h1 h2 h3 => sanitize_of_even h1 h2 h3⟩
  · exact ((sanStep_sublist _ _ _).trans (sanStep_sublist _ _ _)).trans
      (sanStep_sublist _ _ _)
  · unfold sanitizeMarkdown
    have h1 := sanStep_length_ge asterisk (x.count asterisk) x
    have h2 := sanStep_length_ge backtick (x.count backtick)
      (sanStep asterisk (x.count asterisk) x)
    have h3 := sanStep_length_ge underscore (x.count underscore)
      (sanStep backtick (x.count backtick) (sanStep asterisk (x.count asterisk) x))
    omega
  · exact List.Sublist.length_le (((sanStep_sublist _ _ _).trans
      (sanStep_sublist _ _ _)).trans (sanStep_sublist _ _ _))
  · unfold sanitizeMarkdown
    rw [sanStep_filter (by decide), sanStep_filter (by decide),
      sanStep_filter (by decide)]
  · intro c h1 h2 h3
    unfold sanitizeMarkdown
    rw [sanStep_count_ne h3, sanStep_count_ne h2, sanStep_count_ne h1]

/-- Witness for C10 at the concrete input `"ab"` and character `'z'`:
the sanitized text is a sublist of the input, character counts of
non-delimiters are preserved, and with all delimiter counts even the
sanitizer is the identity. -/
theorem sanitize_deletion_only_witness :
    (sanitizeMarkdown exPlain).Sublist exPlain
    ∧ (sanitizeMarkdown exPlain).count 'z' = exPlain.count 'z'
    ∧ sanitizeMarkdown exPlain = exPlain := by
  obtain ⟨hsub, -, -, -, hcount, hid⟩ := sanitize_deletion_only exPlain
  exact ⟨hsub, hcount 'z' (by decide) (by decide) (by decide),
    hid (by decide) (by decide) (by decide)⟩

/-- C1 counterexample.  For the single-chunk stream
`"A [SEGMENT_COMPLETE]B [ANALYSIS_COMPLETE]"` the buffer contains both
sentinel markers and the earliest one (string index 2 < 22) is the soft
`[SEGMENT_COMPLETE]` marker, yet the (only) emitted segment has
`isFinal = true` — the code derives `isFinal` from the hard marker being
present anywhere in the buffer, not from which marker is earliest.  Moreover,
for the Scenario E stream delivered as two marker-terminated chunks, the
emitted contents are not `["Part one", "Part two"]`: the final segment's
content carries the appended disclaimer footer. -/
theorem segmenter_earliest_marker_counterexample :
    (emittedSegments (tokenChunks [bothMarkersSoftFirst])).map SegOut.isFinal = [true]
    ∧ firstIdxOf segMarker bothMarkersSoftFirst = some 2
    ∧ firstIdxOf anaMarker bothMarkersSoftFirst = some 22
    ∧ (emittedSegments (tokenChunks [scenarioEToken1, scenarioEToken2])).map
        SegOut.content ≠ ["Part one".toList, "Part two".toList] := by
  decide

/-- C1 (amended): for the Scenario E token stream delivered as the two chunks
`"Part one [SEGMENT_COMPLETE]"` and `"Part two [ANALYSIS_COMPLETE]"`, exactly
two segments are emitted: `{content = "Part one", isFinal = false}` at
sequence index 0 and `{content = "Part two" ++ disclaimer footer,
isFinal = true}` at sequence index 1.  In general, a loop iteration either
emits nothing or emits exactly one segment whose `isFinal` flag equals
`containsSub anaMarker buffer` — the hard marker being present anywhere in
the buffer, not necessarily as the earliest marker. -/
theorem segmenter_scenarioE_amended :
    emittedSegments (tokenChunks [scenarioEToken1, scenarioEToken2]) =
      [⟨"Part one".toList, false⟩, ⟨"Part two".toList ++ disclaimerFooter, true⟩]
    ∧ ∀ (st : SegState) (chunk : StreamChunk),
        (processChunk st chunk).emitted = st.emitted
        ∨ ∃ seg, (processChunk st chunk).emitted = st.emitted ++ [seg]
            ∧ seg.isFinal = containsSub anaMarker (st.currentSegment ++ chunk.content) := by
  refine ⟨by decide, ?_⟩
  intro st chunk
  unfold processChunk
  dsimp only
  split
  · exact Or.inl rfl
  · split
    · split
      · split
        · dsimp only
          split
          · exact Or.inr ⟨_, rfl, rfl⟩
          · exact Or.inl rfl
        · exact Or.inl rfl
      · exact Or.inl rfl
    · split
      · exact Or.inl rfl
      · exact Or.inl rfl

/-! ## Admission gate invariant -/

theorem gateInv_initial (maxConcurrent : ℕ) : GateInv maxConcurrent initialGateState := by
  constructor
  · simp [initialGateState]
  · simp [initialGateState]

theorem canStartAnalysis_true {maxConcurrent : ℕ} {s : GateState} {c : ℤ}
    (h : canStartAnalysis maxConcurrent s c = true) :
    s.globalCount < maxConcurrent ∧ c ∉ s.active := by
  unfold canStartAnalysis at h
  by_cases h1 : s.globalCount ≥ maxConcurrent
  · rw [if_pos h1] at h
    exact absurd h (by simp)
  · rw [if_neg h1] at h
    by_cases h2 : c ∈ s.active
    · rw [if_pos h2] at h
      exact absurd h (by simp)
    · exact ⟨by omega, h2⟩

theorem gateInv_apply {maxConcurrent : ℕ} {s : GateState}
    (h : GateInv maxConcurrent s) (op : GateOp) :
    GateInv maxConcurrent (applyGateOp maxConcurrent s op) := by
  obtain ⟨hcard, hle⟩ := h
  cases op with
  | canStart c => exact ⟨hcard, hle⟩
  | start c =>
    show GateInv maxConcurrent (startAnalysis maxConcurrent s c).1
    unfold startAnalysis
    by_cases hc : canStartAnalysis maxConcurrent s c = false
    · rw [if_pos hc]
      exact ⟨hcard, hle⟩
    · rw [if_neg hc]
      have hcs : canStartAnalysis maxConcurrent s c = true := by
        cases hv : canStartAnalysis maxConcurrent s c
        · exact absurd hv hc
        · rfl
      obtain ⟨hlt, hmem⟩ := canStartAnalysis_true hcs
      refine ⟨?_, ?_⟩
      · show s.globalCount + 1 = (insert c s.active).card
        rw [Finset.card_insert_of_not_mem hmem, hcard]
      · show s.globalCount + 1 ≤ maxConcurrent
        omega
  | finish c =>
    show GateInv maxConcurrent (finishAnalysis s c)
    unfold finishAnalysis
    by_cases hm : c ∈ s.active
    · rw [if_pos hm]
      have hpos : 1 ≤ s.active.card := Finset.card_pos.mpr ⟨c, hm⟩
      refine ⟨?_, ?_⟩
      · show s.globalCount - 1 = (s.active.erase c).card
        rw [Finset.card_erase_of_mem hm, hcard]
      · show s.globalCount - 1 ≤ maxConcurrent
        omega
    · rw [if_neg hm]
      exact ⟨hcard, hle⟩

theorem gateInv_foldl {maxConcurrent : ℕ} (s : GateState)
    (h : GateInv maxConcurrent s) (ops : List GateOp) :
    GateInv maxConcurrent (ops.foldl (applyGateOp maxConcurrent) s) := by
  induction ops generalizing s with
  | nil => exact h
  | cons op rest ih => exact ih _ (gateInv_apply h op)

theorem gateInv_run (maxConcurrent : ℕ) (ops : List GateOp) :
    GateInv maxConcurrent (runGateOps maxConcurrent ops) :=
  gateInv_foldl _ (gateInv_initial maxConcurrent) ops

/-- C2: for every call sequence on a fresh gate, `globalCount` equals the
number of conversations marked active, `globalCount` never exceeds the
configured maximum at any prefix of the sequence, and `startAnalysis` at the
global ceiling or for an already-active conversation throws leaving the state
unchanged. -/
theorem gate_admission_conservation (maxConcurrent : ℕ) (ops : List GateOp) :
    (runGateOps maxConcurrent ops).globalCount
        = (runGateOps maxConcurrent ops).active.card
    ∧ (∀ pre, pre <+: ops → (runGateOps maxConcurrent pre).globalCount ≤ maxConcurrent)
    ∧ ∀ (s : GateState) (c : ℤ), (maxConcurrent ≤ s.globalCount ∨ c ∈ s.active) →
        startAnalysis maxConcurrent s c = (s, true) := by
  refine ⟨(gateInv_run maxConcurrent ops).1,
    fun pre _ => (gateInv_run maxConcurrent pre).2, ?_⟩
  intro s c h
  have hfalse : canStartAnalysis maxConcurrent s c = false := by
    unfold canStartAnalysis
    rcases h with h | h
    · rw [if_pos (by omega)]
    · by_cases h1 : s.globalCount ≥ maxConcurrent
      · rw [if_pos h1]
      · rw [if_neg h1, if_pos h]
  unfold startAnalysis
  rw [if_pos hfalse]

/-- Witness for C2 at `maxConcurrent = 1` and the concrete call sequence
`[start 5, start 6, finish 5]` (the second start is over the ceiling), with
the prefix `[start 5]` and a concrete saturated state for the throw clause. -/
theorem gate_admission_conservation_witness :
    (runGateOps 1 [GateOp.start 5, GateOp.start 6, GateOp.finish 5]).globalCount
        = (runGateOps 1 [GateOp.start 5, GateOp.start 6, GateOp.finish 5]).active.card
    ∧ (runGateOps 1 [GateOp.start 5]).globalCount ≤ 1
    ∧ startAnalysis 1 ⟨1, {5}⟩ 6 = (⟨1, {5}⟩, true) := by
  obtain ⟨h1, h2, h3⟩ :=
    gate_admission_conservation 1 [GateOp.start 5, GateOp.start 6, GateOp.finish 5]
  exact ⟨h1, h2 [GateOp.start 5] ⟨[GateOp.start 6, GateOp.finish 5], rfl⟩,
    h3 ⟨1, {5}⟩ 6 (Or.inl le_rfl)⟩

/-! ## Handler release discipline -/

/-- C3: whenever `handleTextMessage` reaches admission (`canStartAnalysis`
true on a bot-directed message with non-empty cleaned text), the gate trace is
exactly one `canStartAnalysis` query, one `startAnalysis` and one
`finishAnalysis` — the slot is released exactly once regardless of how the
`try` body ends (normal completion, early return, or a throw anywhere in
resolution, kline fetch or streaming) — and the final `globalCount` equals its
value before admission. -/
theorem handler_releases_slot (maxConcurrent : ℕ) (gate : GateState)
    (chatId : ℤ) (t cleaned : List Char) (w : HandlerWorld)
    (hGrant : canStartAnalysis maxConcurrent gate chatId = true)
    (hclean : jsTrim cleaned ≠ []) :
    handleTextMessage maxConcurrent gate chatId (some t) true cleaned w
      = (⟨gate.globalCount, gate.active.erase chatId⟩,
         [GateOp.canStart chatId, GateOp.start chatId, GateOp.finish chatId],
         bodyOutcome w) := by
  have hstart : (startAnalysis maxConcurrent gate chatId).1
      = ⟨gate.globalCount + 1, insert chatId gate.active⟩ := by
    unfold startAnalysis
    rw [if_neg (by simp [hGrant])]
  unfold handleTextMessage
  dsimp only
  rw [if_neg (by decide : ¬(true = false)), if_neg hclean,
    if_neg (by simp [hGrant]), hstart]
  unfold finishAnalysis
  rw [if_pos (Finset.mem_insert_self chatId gate.active)]
  dsimp only
  rw [Nat.add_sub_cancel, Finset.erase_insert_eq_erase]

/-- Witness for C3: a fresh gate with ceiling 1, chat id 7, message `"ab"`,
and a world whose resolution immediately classifies the message as
non-analysis (early-return path). -/
theorem handler_releases_slot_witness :
    handleTextMessage 1 initialGateState 7 (some exPlain) true exPlain
        ⟨.ok (), .ok ⟨false, none, .spot, 1⟩, .ok (), .ok (), .ok (), .ok (),
          .ok (), .ok ()⟩
      = (⟨initialGateState.globalCount, initialGateState.active.erase 7⟩,
         [GateOp.canStart 7, GateOp.start 7, GateOp.finish 7],
         bodyOutcome ⟨.ok (), .ok ⟨false, none, .spot, 1⟩, .ok (), .ok (),
           .ok (), .ok (), .ok (), .ok ()⟩) :=
  handler_releases_slot 1 initialGateState 7 exPlain exPlain _
    (by decide) (by decide)

/-! ## Existence validator -/

/-- C4 counterexample.  Under an oracle where the spot probe for `BTCUSDT`
succeeds, `validateTradingPairByAPI` called with the initial guess `futures`
(whose probe also succeeds) confirms `futures`, not `SpotMarket`: the
initial guess is probed first and wins, so spot has no priority. -/
theorem validator_spot_priority_counterexample :
    probeAlways exSymbol TradingPairType.spot = true
    ∧ (validateTradingPairByAPI probeAlways (some exSymbol)
        TradingPairType.futures).finalTradingPairType = TradingPairType.futures
    ∧ (validateTradingPairByAPI probeAlways (some exSymbol)
        TradingPairType.futures).finalTradingPairType ≠ TradingPairType.spot := by
  decide

/-- C4 (amended): if the spot probe for the (normalized, non-empty) symbol
succeeds, `validate(S, M)` confirms `SpotMarket` whenever the initial guess
`M` is spot, or the probe for `M` fails; when both probes succeed the initial
guess takes priority, not spot. -/
theorem validator_spot_when_guess_spot_or_fails
    (probe : List Char → TradingPairType → Bool) (S : List Char)
    (M : TradingPairType) (hS : S ≠ []) (hclean : jsToUpper (jsTrim S) = S)
    (hspot : probe S TradingPairType.spot = true)
    (h : M = TradingPairType.spot ∨ probe S M = false) :
    validateTradingPairByAPI probe (some S) M
      = ⟨true, some S, TradingPairType.spot⟩ := by
  unfold validateTradingPairByAPI
  dsimp only
  rw [if_neg hS, hclean]
  rcases h with rfl | hM
  · rw [if_pos hspot]
  · cases M with
    | spot => rw [if_pos hspot]
    | futures =>
        rw [if_neg (by simp [hM]),
          if_pos (show probe S TradingPairType.futures.other = true from hspot)]
        rfl

/-- Witness for C4 (amended) with the all-succeeding oracle and initial
guess spot. -/
theorem validator_spot_when_guess_spot_or_fails_witness :
    validateTradingPairByAPI probeAlways (some exSymbol) TradingPairType.spot
      = ⟨true, some exSymbol, TradingPairType.spot⟩ :=
  validator_spot_when_guess_spot_or_fails probeAlways exSymbol
    TradingPairType.spot (by decide) (by decide) (by decide) (Or.inl rfl)

/-- C5: when the probe for the (normalized, non-empty) symbol under the
guessed market type fails and the probe under the other market type succeeds,
the validator corrects the market type transparently, returning valid with
the same symbol and the other type; when both probes fail it returns invalid
(with a null pair and the original type) instead of raising. -/
theorem validator_cross_type_fallback
    (probe : List Char → TradingPairType → Bool) (S : List Char)
    (M : TradingPairType) (hS : S ≠ []) (hclean : jsToUpper (jsTrim S) = S) :
    (probe S M = false → probe S M.other = true →
        validateTradingPairByAPI probe (some S) M = ⟨true, some S, M.other⟩)
    ∧ (probe S M = false → probe S M.other = false →
        validateTradingPairByAPI probe (some S) M = ⟨false, none, M⟩) := by
  constructor <;> intro h1 h2 <;>
    · unfold validateTradingPairByAPI
      dsimp only
      rw [if_neg hS, hclean, if_neg (by simp [h1]), h2]
      simp

/-- Witness for C5 with the futures-only oracle and initial guess spot:
the spot probe fails, the futures probe succeeds, and the validator corrects
the type to futures keeping the symbol. -/
theorem validator_cross_type_fallback_witness :
    validateTradingPairByAPI probeFuturesOnly (some exSymbol) TradingPairType.spot
      = ⟨true, some exSymbol, TradingPairType.futures⟩ :=
  (validator_cross_type_fallback probeFuturesOnly exSymbol TradingPairType.spot
    (by decide) (by decide)).1 (by decide) (by decide)

/-! ## Resolver totality and verdict shape -/

theorem parseAIResponse_confidence (r : List Char) :
    (parseAIResponse r).confidence = 9 / 10 ∨ (parseAIResponse r).confidence = 0 := by
  unfold parseAIResponse
  dsimp only
  repeat' split
  all_goals simp [parseFailureResult]

theorem analyzeMessageWithContext_confidence (c : Except Unit (List Char)) :
    (analyzeMessageWithContext c).confidence = 1 / 10
    ∨ (analyzeMessageWithContext c).confidence = 9 / 10
    ∨ (analyzeMessageWithContext c).confidence = 0 := by
  unfold analyzeMessageWithContext
  split
  · left; rfl
  · next resp heq =>
      dsimp only
      rcases parseAIResponse_confidence resp with h | h <;> simp [h]

/-- C8: the resolver is total and degrades instead of throwing.  Empty or
whitespace-only input returns `{isTradeAnalysis: false, tradingPair: null,
confidence: 1.0}` with zero external calls; the confidence of every returned
verdict is one of the literal values `1`, `0.9`, `0.1`, `0` (a value is
returned on every path — classification transport failure and empty content
degrade to confidence `0`); a transport failure of the first classification
call is absorbed by the outer catch; and a registry failure or a second-pass
transport failure leaves the first-pass verdict in force. -/
theorem resolver_totality (w : ResolverWorld) (msg : List Char) :
    ((msg = [] ∨ jsTrim msg = []) →
        analyzeMessage w msg = (⟨false, none, .spot, 1⟩, 0))
    ∧ ((analyzeMessage w msg).1.confidence = 1
        ∨ (analyzeMessage w msg).1.confidence = 9 / 10
        ∨ (analyzeMessage w msg).1.confidence = 1 / 10
        ∨ (analyzeMessage w msg).1.confidence = 0)
    ∧ (¬(msg = [] ∨ jsTrim msg = []) → ∀ e, w.firstCall = .error e →
        analyzeMessage w msg = (⟨false, none, .spot, 0⟩, 1))
    ∧ (¬(msg = [] ∨ jsTrim msg = []) → ∀ resp, w.firstCall = .ok resp → resp ≠ [] →
        ((∀ e, w.pairsFetch = .error e →
            (analyzeMessage w msg).1 = firstPassVerdict resp)
          ∧ (∀ e, w.secondCall = .error e →
            (analyzeMessage w msg).1 = firstPassVerdict resp))) := by
  refine ⟨?_, ?_, ?_, ?_⟩
  · intro h
    unfold analyzeMessage
    rw [if_pos h]
  · unfold analyzeMessage
    by_cases h : msg = [] ∨ jsTrim msg = []
    · rw [if_pos h]
      left
      rfl
    · rw [if_neg h]
      cases hc : callAIAPI w.firstCall with
      | error e =>
          dsimp only
          right; right; right
          rfl
      | ok resp =>
          dsimp only
          split
          · cases hp : w.pairsFetch with
            | error e =>
                dsimp only
                rcases parseAIResponse_confidence resp with hq | hq <;> simp [hq]
            | ok pr =>
                dsimp only
                split
                · rcases analyzeMessageWithContext_confidence w.secondCall
                    with hq | hq | hq <;> simp [hq]
                · rcases parseAIResponse_confidence resp with hq | hq <;> simp [hq]
          · rcases parseAIResponse_confidence resp with hq | hq <;> simp [hq]
  · intro h e he
    unfold analyzeMessage
    rw [if_neg h, show callAIAPI w.firstCall = .error () from by rw [he]; rfl]
  · intro h resp hresp hne
    have hok : callAIAPI w.firstCall = .ok (jsTrim resp) := by
      rw [hresp]
      unfold callAIAPI
      dsimp only
      rw [if_neg hne]
    constructor
    · intro e hp
      unfold analyzeMessage
      rw [if_neg h, hok]
      dsimp only
      split
      · rw [hp]
        rfl
      · rfl
    · intro e hsc
      unfold analyzeMessage
      rw [if_neg h, hok]
      dsimp only
      split
      · cases hp : w.pairsFetch with
        | error e2 => rfl
        | ok pr =>
            dsimp only
            rw [show analyzeMessageWithContext w.secondCall
                = ⟨true, none, .spot, 1 / 10⟩ from by
              unfold analyzeMessageWithContext
              rw [show callAIAPI w.secondCall = .error () from by rw [hsc]; rfl]]
            rfl
      · rfl

/-- Witness for C8: empty input with all external calls failing returns the
short-circuit verdict with zero calls, and a non-empty message whose first
classification call fails transport-wise returns the degraded verdict. -/
theorem resolver_totality_witness :
    analyzeMessage ⟨.error (), .error (), .error ()⟩ []
        = (⟨false, none, .spot, 1⟩, 0)
    ∧ analyzeMessage ⟨.error (), .error (), .error ()⟩ exMessage
        = (⟨false, none, .spot, 0⟩, 1) := by
  constructor
  · exact (resolver_totality ⟨.error (), .error (), .error ()⟩ []).1 (Or.inl rfl)
  · exact (resolver_totality ⟨.error (), .error (), .error ()⟩ exMessage).2.2.1
      (by decide) () rfl

/-- C9 counterexample.  For the classifier output
`{"isTradeAnalysis": false, "tradingPair": "x"}` the resolver returns a
verdict with `isTradeAnalysis = false` and a non-null `tradingPair` (the
null-when-false invariant is not enforced), and the returned symbol `"X"`
does not match `^[A-Z]{2,15}$` (length 1): `parseAIResponse` only
type-checks the fields and `validateTradingPair` only upper-cases, logging a
warning on a failed pattern test without rejecting. -/
theorem verdict_invariant_counterexample :
    (analyzeMessage ⟨.ok respFalseWithPair, .error (), .error ()⟩ exMessage).1
      = ⟨false, some ("X".toList), .spot, 9 / 10⟩
    ∧ specSymbolPattern ("X".toList) = false := by
  constructor
  · rfl
  · decide

theorem validateTradingPair_some {pr : Option (List Char)} {s : List Char}
    (h : validateTradingPair pr = some s) : ∃ p, p ≠ [] ∧ s = jsToUpper p := by
  cases pr with
  | none => simp [validateTradingPair] at h
  | some p =>
      by_cases hp : p = []
      · simp [validateTradingPair, hp] at h
      · refine ⟨p, hp, ?_⟩
        simp [validateTradingPair, hp] at h
        exact h.symm

theorem analyzeMessageWithContext_pair {c : Except Unit (List Char)}
    {s : List Char} (h : (analyzeMessageWithContext c).tradingPair = some s) :
    ∃ p, p ≠ [] ∧ s = jsToUpper p := by
  unfold analyzeMessageWithContext at h
  split at h
  · simp at h
  · dsimp only at h
    exact validateTradingPair_some h

/-- C9 (amended): every verdict the resolver returns carries either a null
`tradingPair` or the `toUpperCase` image of a non-empty string parsed from
the model output; neither the null-when-false coupling nor the
`^[A-Z]{2,15}$` syntactic pattern is enforced by the code. -/
theorem verdict_symbol_shape (w : ResolverWorld) (msg : List Char) :
    ∀ s, (analyzeMessage w msg).1.tradingPair = some s →
      ∃ p, p ≠ [] ∧ s = jsToUpper p := by
  intro s h
  unfold analyzeMessage at h
  split at h
  · simp at h
  · split at h
    · simp at h
    · dsimp only at h
      split at h
      · split at h
        · dsimp only at h
          exact validateTradingPair_some h
        · split at h
          · dsimp only at h
            exact analyzeMessageWithContext_pair h
          · dsimp only at h
            exact validateTradingPair_some h
      · dsimp only at h
        exact validateTradingPair_some h

/-- Witness for C9 (amended) at the counterexample run: the returned symbol
`"X"` is the uppercasing of the parsed `"x"`. -/
theorem verdict_symbol_shape_witness :
    ∃ p, p ≠ [] ∧ "X".toList = jsToUpper p :=
  verdict_symbol_shape ⟨.ok respFalseWithPair, .error (), .error ()⟩ exMessage
    ("X".toList) (by decide)
